import Mathlib

/-!
Shallow embedding of the heartbeat monitoring system in `src/main.py`
(class `HeartbeatMonitor`), together with proofs about its behaviour.

Conventions of the embedding:
* Raw input records are modelled by `PyVal` (the shapes exercised by the
  program: `None`, strings and string-keyed dictionaries).
* Python `datetime` objects are modelled by `PyDateTime`: wall-clock
  microseconds since 1970-01-01 plus an optional UTC offset in seconds
  (`none` models a naive datetime).  `datetime.fromisoformat` (CPython's
  pre-3.11 grammar, which is what the `Z`-stripping wrapper in the source
  targets) is modelled by `fromisoformat`; sub-second UTC offsets are not
  modelled.  Arithmetic is exact (ℤ/ℚ) where CPython uses ints and floats.
* Fallible code paths return `Except PyErr`, with `PyErr` recording the
  class of the exception CPython would raise (`TypeError`, `KeyError`,
  `ValueError`), without the message payload.
* `list.sort(key=...)` first computes every key, then sorts; CPython's
  timsort raises `TypeError` as soon as it compares two incomparable keys,
  and for a list of at least two elements whose keys are not all in one
  comparable class (all naive datetimes or all aware datetimes) the run
  detection / binary insertion always performs such a comparison, so the
  model errors exactly when the keys are not uniformly comparable, and
  otherwise sorts stably (`List.insertionSort` with the insert-before-first
  strictly-greater rule is stable, matching timsort's stability).
* `datetime.strftime('%Y-%m-%dT%H:%M:%SZ')` renders the *wall-clock*
  fields of the datetime (zero-padded) and appends a literal `Z`; it does
  not convert to UTC.
-/

namespace Heartbeat

/-- A scalar dictionary field value.  The records this program consumes
are decoded JSON whose `service` / `timestamp` fields are scalars; nested
containers inside a record are not modelled. -/
inductive PyLeaf where
  | pNone : PyLeaf
  | pStr (s : String) : PyLeaf
deriving DecidableEq, Repr, Inhabited

/-- A Python-like runtime value as fed to the monitor: `None`, a string, or
a string-keyed dictionary. -/
inductive PyVal where
  | pNone : PyVal
  | pStr (s : String) : PyVal
  | pDict (fields : List (String × PyLeaf)) : PyVal
deriving DecidableEq, Repr, Inhabited

/-- The class of exception raised by a failing Python operation. -/
inductive PyErr where
  | typeError : PyErr
  | keyError : PyErr
  | valueError : PyErr
deriving DecidableEq, Repr

/-- Dictionary lookup; later duplicate keys shadow earlier ones, as in a
Python dict built by repeated assignment. -/
def pyLookup (fields : List (String × PyLeaf)) (k : String) : Option PyLeaf :=
  fields.foldl (fun acc p => if p.1 = k then some p.2 else acc) none

/-- `v[k]` on a raw value: `TypeError` when `v` is not a dict, `KeyError`
when the key is absent. -/
def pySubscript (v : PyVal) (k : String) : Except PyErr PyLeaf :=
  match v with
  | .pDict fields =>
    match pyLookup fields k with
    | some w => .ok w
    | none => .error .keyError
  | _ => .error .typeError

/-- Proleptic-Gregorian leap year test. -/
def isLeapYear (y : ℤ) : Bool := (y % 4 == 0 && y % 100 != 0) || y % 400 == 0

/-- Number of days in month `m` of year `y`. -/
def daysInMonth (y m : ℤ) : ℤ :=
  if m = 2 then (if isLeapYear y then 29 else 28)
  else if m = 4 ∨ m = 6 ∨ m = 9 ∨ m = 11 then 30 else 31

/-- Days since 1970-01-01 of the civil date `y-m-d` (Gregorian, valid for
all years since `/` on ℤ is floor division for positive divisors). -/
def daysFromCivil (y m d : ℤ) : ℤ :=
  let y' := if m ≤ 2 then y - 1 else y
  let era := y' / 400
  let yoe := y' - era * 400
  let mp := if m ≤ 2 then m + 9 else m - 3
  let doy := (153 * mp + 2) / 5 + d - 1
  let doe := yoe * 365 + yoe / 4 - yoe / 100 + doy
  era * 146097 + doe - 719468

/-- Civil date `(y, m, d)` of a day count since 1970-01-01. -/
def civilFromDays (z : ℤ) : ℤ × ℤ × ℤ :=
  let z' := z + 719468
  let era := z' / 146097
  let doe := z' % 146097
  let yoe := (doe - doe / 1460 + doe / 36524 - doe / 146096) / 365
  let y := yoe + era * 400
  let doy := doe - (365 * yoe + yoe / 4 - yoe / 100)
  let mp := (5 * doy + 2) / 153
  let d := doy - (153 * mp + 2) / 5 + 1
  let m := if mp < 10 then mp + 3 else mp - 9
  (if m ≤ 2 then y + 1 else y, m, d)

/-- A Python `datetime`: wall-clock microseconds since 1970-01-01T00:00:00
together with an optional UTC offset in seconds (`none` = naive). -/
structure PyDateTime where
  wall : ℤ
  off : Option ℤ
deriving DecidableEq, Repr

instance : Inhabited PyDateTime := ⟨⟨0, none⟩⟩

/-- The instant a datetime denotes, in microseconds: aware datetimes have
their offset resolved, naive ones are read at face value (this is exactly
the quantity CPython compares and subtracts within one comparable class). -/
def utcMicros (d : PyDateTime) : ℤ := d.wall - 1000000 * d.off.getD 0

/-- `d + timedelta(seconds=k)`: shifts the wall clock, keeps the tzinfo. -/
def pyAddSeconds (d : PyDateTime) (k : ℤ) : PyDateTime := ⟨d.wall + k * 1000000, d.off⟩

/-- `(a - b).total_seconds()` for two datetimes of the same comparable
class, as an exact rational. -/
def pySubSeconds (a b : PyDateTime) : ℚ := ((utcMicros a - utcMicros b : ℤ) : ℚ) / 1000000

/-- Decimal digit value of a character, if it is a digit. -/
def parseDigit (c : Char) : Option ℕ := if c.isDigit then some (c.toNat - 48) else none

/-- Two mandatory digits. -/
def parse2 : List Char → Option (ℕ × List Char)
  | a :: b :: r => do pure (10 * (← parseDigit a) + (← parseDigit b), r)
  | _ => none

/-- Four mandatory digits. -/
def parse4 : List Char → Option (ℕ × List Char)
  | a :: b :: c :: d :: r => do
    pure (((10 * (← parseDigit a) + (← parseDigit b)) * 10 + (← parseDigit c)) * 10
            + (← parseDigit d), r)
  | _ => none

/-- Fractional-second digits: exactly three or six digits, value in
microseconds. -/
def parseFrac : List Char → Option ℕ
  | [a, b, c] => do
    pure ((10 * (← parseDigit a) + (← parseDigit b)) * 10 + (← parseDigit c)) <&> (· * 1000)
  | [a, b, c, d, e, f] => do
    pure (((((10 * (← parseDigit a) + (← parseDigit b)) * 10 + (← parseDigit c)) * 10
              + (← parseDigit d)) * 10 + (← parseDigit e)) * 10 + (← parseDigit f))
  | _ => none

/-- `HH[:MM[:SS[.fff[fff]]]]`, consuming the whole input. -/
def parseHMS (cs : List Char) : Option (ℕ × ℕ × ℕ × ℕ) :=
  match parse2 cs with
  | some (h, []) => some (h, 0, 0, 0)
  | some (h, ':' :: r₁) =>
    match parse2 r₁ with
    | some (mi, []) => some (h, mi, 0, 0)
    | some (mi, ':' :: r₂) =>
      match parse2 r₂ with
      | some (s, []) => some (h, mi, s, 0)
      | some (s, '.' :: r₃) => (parseFrac r₃).map (fun us => (h, mi, s, us))
      | _ => none
    | _ => none
  | _ => none

/-- The `HH:MM[:SS]` part of a UTC offset (after the sign), in seconds,
consuming the whole input. -/
def parseOffsetTail (cs : List Char) : Option ℕ :=
  match parse2 cs with
  | some (oh, ':' :: r₁) =>
    match parse2 r₁ with
    | some (om, []) => some (oh * 3600 + om * 60)
    | some (om, ':' :: r₂) =>
      match parse2 r₂ with
      | some (os, []) => some (oh * 3600 + om * 60 + os)
      | _ => none
    | _ => none
  | _ => none

/-- Wall-clock microseconds of the given civil fields. -/
def wallOfFields (y mo dy h mi s us : ℕ) : ℤ :=
  (daysFromCivil y mo dy * 86400 + (h : ℤ) * 3600 + (mi : ℤ) * 60 + (s : ℤ)) * 1000000 + us

/-- `datetime.fromisoformat` on a character list: `YYYY-MM-DD` optionally
followed by an arbitrary single separator character and
`HH[:MM[:SS[.fff[fff]]]][±HH:MM[:SS]]`.  Field ranges are validated as
CPython does (the time constructor checks hours/minutes/seconds, the
timezone constructor only requires the total offset to be under 24 hours). -/
def fromisoformat (cs : List Char) : Option PyDateTime :=
  match parse4 cs with
  | some (y, '-' :: r₁) =>
    match parse2 r₁ with
    | some (mo, '-' :: r₂) =>
      match parse2 r₂ with
      | some (dy, rest) =>
        if y < 1 ∨ mo < 1 ∨ 12 < (mo : ℤ) ∨ dy < 1 ∨ daysInMonth y mo < (dy : ℤ) then none
        else
          match rest with
          | [] => some ⟨wallOfFields y mo dy 0 0 0 0, none⟩
          | _sep :: timeChars =>
            let parts := timeChars.span (fun c => !(c == '+' || c == '-'))
            match parseHMS parts.1 with
            | none => none
            | some (h, mi, s, us) =>
              if 23 < h ∨ 59 < mi ∨ 59 < s then none
              else
                match parts.2 with
                | [] => some ⟨wallOfFields y mo dy h mi s us, none⟩
                | sign :: tzRest =>
                  match parseOffsetTail tzRest with
                  | none => none
                  | some tot =>
                    if 86400 ≤ tot then none
                    else some ⟨wallOfFields y mo dy h mi s us,
                               some (if sign = '+' then (tot : ℤ) else -(tot : ℤ))⟩
      | _ => none
    | _ => none
  | _ => none

/-- `HeartbeatMonitor.parse_timestamp`: rewrite a trailing `Z` to `+00:00`,
then parse; any failure yields `None` (the `except` clause in the source
catches `ValueError`, `AttributeError` and `TypeError`). -/
def parse_timestamp (s : String) : Option PyDateTime :=
  let cs := s.data
  if cs.getLast? = some 'Z' then fromisoformat (cs.dropLast ++ ("+00:00" : String).data)
  else fromisoformat cs

/-- `parse_timestamp` applied to an arbitrary value: a non-string has no
`.endswith`, so the `AttributeError` is caught and `None` results. -/
def parseTsVal : PyLeaf → Option PyDateTime
  | .pStr s => parse_timestamp s
  | _ => none

/-- `not event['service'].strip()` is true exactly when the string has no
non-whitespace character; `pyStripNonempty` is the negation of that test. -/
def pyStripNonempty (s : String) : Bool := s.data.any (fun c => !c.isWhitespace)

/-- `HeartbeatMonitor.validate_event`. -/
def validate_event (event : PyVal) : Bool :=
  match event with
  | .pDict fields =>
    if (pyLookup fields "service").isNone || (pyLookup fields "timestamp").isNone then false
    else
      (match pyLookup fields "service" with
       | some (.pStr s) => pyStripNonempty s
       | _ => false)
      &&
      (match pyLookup fields "timestamp" with
       | some v => (parseTsVal v).isSome
       | none => false)
  | _ => false

/-- Zero-padded two-digit decimal rendering. -/
def pad2 (n : ℤ) : List Char := [Nat.digitChar (n.toNat / 10 % 10), Nat.digitChar (n.toNat % 10)]

/-- Zero-padded four-digit decimal rendering. -/
def pad4 (n : ℤ) : List Char :=
  [Nat.digitChar (n.toNat / 1000 % 10), Nat.digitChar (n.toNat / 100 % 10),
   Nat.digitChar (n.toNat / 10 % 10), Nat.digitChar (n.toNat % 10)]

/-- Render wall-clock microseconds as `%Y-%m-%dT%H:%M:%SZ` (second
precision; the sub-second part is truncated, as `%S` prints the seconds
field). -/
def fmtWallZ (wall : ℤ) : String :=
  let secs := wall / 1000000
  let day := secs / 86400
  let sod := secs % 86400
  let c := civilFromDays day
  String.mk (pad4 c.1 ++ '-' :: pad2 c.2.1 ++ '-' :: pad2 c.2.2 ++ 'T' ::
             pad2 (sod / 3600) ++ ':' :: pad2 (sod % 3600 / 60) ++ ':' :: pad2 (sod % 60) ++ ['Z'])

/-- `dt.strftime('%Y-%m-%dT%H:%M:%SZ')`: renders the wall-clock fields of
`dt` and appends a literal `Z`; the tzinfo is not consulted. -/
def pyStrftimeZ (d : PyDateTime) : String := fmtWallZ d.wall

/-- Render a UTC instant (microseconds since the epoch) as an ISO-8601 UTC
string with second precision and trailing `Z`. -/
def isoUtcString (t : ℤ) : String := fmtWallZ t

/-- Shape test: `YYYY-MM-DDTHH:MM:SSZ`, all digit positions decimal digits. -/
def isIsoSecondZ (s : String) : Bool :=
  match s.data with
  | [y1, y2, y3, y4, '-', m1, m2, '-', d1, d2, 'T', h1, h2, ':', n1, n2, ':', s1, s2, 'Z'] =>
    y1.isDigit && y2.isDigit && y3.isDigit && y4.isDigit && m1.isDigit && m2.isDigit &&
    d1.isDigit && d2.isDigit && h1.isDigit && h2.isDigit && n1.isDigit && n2.isDigit &&
    s1.isDigit && s2.isDigit
  | _ => false

/-- Python's `round` on an exact value: round to nearest, ties to even. -/
def pyRound (q : ℚ) : ℤ :=
  if Int.fract q < 1 / 2 then ⌊q⌋
  else if 1 / 2 < Int.fract q then ⌊q⌋ + 1
  else if ⌊q⌋ % 2 = 0 then ⌊q⌋ else ⌊q⌋ + 1

/-- Round-half-to-even of `p / q` for `q > 0`, in integer arithmetic (`/`
on ℤ is floor division for a positive divisor, so `r` is the nonnegative
remainder); `pyRoundRatio_eq_pyRound` proves it equal to `pyRound` of the
rational quotient. -/
def pyRoundRatio (p q : ℤ) : ℤ :=
  let f := p / q
  let r := p - q * f
  if 2 * r < q then f
  else if q < 2 * r then f + 1
  else if f % 2 = 0 then f else f + 1

instance {ε α : Type} [DecidableEq ε] [DecidableEq α] : DecidableEq (Except ε α) := fun x y =>
  match x, y with
  | .ok a, .ok b => if h : a = b then .isTrue (by rw [h]) else .isFalse (by simp [h])
  | .error e, .error f => if h : e = f then .isTrue (by rw [h]) else .isFalse (by simp [h])
  | .ok _, .error _ => .isFalse (by simp)
  | .error _, .ok _ => .isFalse (by simp)

/-- An alert record as returned by the detector: the service value and the
formatted `alert_at` string. -/
structure Alert where
  service : PyLeaf
  alert_at : String
deriving DecidableEq, Repr

/-- The detector's configuration (the two attributes stored by
`HeartbeatMonitor.__init__`). -/
structure HeartbeatMonitor where
  expected_interval_seconds : ℤ
  allowed_misses : ℤ
deriving DecidableEq, Repr

/-- `HeartbeatMonitor.__init__`: raises `ValueError` on a non-positive
interval (checked first) or non-positive miss threshold. -/
def HeartbeatMonitor.init (expected_interval_seconds allowed_misses : ℤ) :
    Except PyErr HeartbeatMonitor :=
  if expected_interval_seconds ≤ 0 then .error .valueError
  else if allowed_misses ≤ 0 then .error .valueError
  else .ok ⟨expected_interval_seconds, allowed_misses⟩

/-- `time_diff` of one adjacent pair in microseconds: from `expected_next`
(= first event plus one interval) to the second event. -/
def deviationUs (m : HeartbeatMonitor) (d₁ d₂ : PyDateTime) : ℤ :=
  utcMicros d₂ - utcMicros (pyAddSeconds d₁ m.expected_interval_seconds)

/-- `time_diff` in seconds, as an exact rational. -/
def deviation (m : HeartbeatMonitor) (d₁ d₂ : PyDateTime) : ℚ :=
  pySubSeconds d₂ (pyAddSeconds d₁ m.expected_interval_seconds)

/-- The late-arrival test `time_diff >= expected_interval_seconds * 0.9`,
decided in exact integer arithmetic: the rational comparison is multiplied
through by the positive constant `10 * 1000000` (`gapMissed_iff_rat`
proves the equivalence with the source's rational form). -/
def gapMissed (m : HeartbeatMonitor) (d₁ d₂ : PyDateTime) : Bool :=
  decide (9 * (m.expected_interval_seconds * 1000000) ≤ 10 * deviationUs m d₁ d₂)

/-- `intervals_missed = round(time_diff / expected_interval_seconds)`:
round-half-even of `deviationUs / (interval * 10^6)`, which equals
`pyRound` of the rational quotient (`intervalsMissed_eq_pyRound`). -/
def intervalsMissed (m : HeartbeatMonitor) (d₁ d₂ : PyDateTime) : ℤ :=
  pyRoundRatio (deviationUs m d₁ d₂) (m.expected_interval_seconds * 1000000)

/-- The alert dictionary built when the threshold is crossed at the pair
whose first event is `d₁`. -/
def alertOf (m : HeartbeatMonitor) (svc : PyLeaf) (d₁ : PyDateTime) : Alert :=
  ⟨svc, pyStrftimeZ (pyAddSeconds (pyAddSeconds d₁ m.expected_interval_seconds)
                       (m.expected_interval_seconds * (m.allowed_misses - 1)))⟩

/-- The gap-scanning loop of `detect_missed_heartbeats`, on already parsed
timestamps (the algorithm after validation): walk adjacent pairs carrying
`consecutive_misses`, return at the first threshold crossing. -/
def detectCore (m : HeartbeatMonitor) (svc : PyLeaf) :
    List PyDateTime → ℤ → Option Alert
  | d₁ :: d₂ :: rest, cm =>
    if gapMissed m d₁ d₂ then
      let cm' := cm + intervalsMissed m d₁ d₂
      if m.allowed_misses ≤ cm' then some (alertOf m svc d₁)
      else detectCore m svc (d₂ :: rest) cm'
    else detectCore m svc (d₂ :: rest) 0
  | _, _ => none

/-- The value of `consecutive_misses` after each adjacent pair, were the
loop to continue past a threshold crossing (it agrees with the loop up to
and including the first crossing). -/
def cmScan (m : HeartbeatMonitor) : List PyDateTime → ℤ → List ℤ
  | d₁ :: d₂ :: rest, cm =>
    let cm' := if gapMissed m d₁ d₂ then cm + intervalsMissed m d₁ d₂ else 0
    cm' :: cmScan m (d₂ :: rest) cm'
  | _, _ => []

/-- `event['service']`, used as the grouping key (all modelled scalar
values are hashable). -/
def extractService (e : PyVal) : Except PyErr PyLeaf :=
  pySubscript e "service"

/-- Append `e` to the group of key `k`, creating the group at the end on
first occurrence (Python dict insertion order). -/
def addToGroup (gs : List (PyLeaf × List PyVal)) (k : PyLeaf) (e : PyVal) :
    List (PyLeaf × List PyVal) :=
  match gs with
  | [] => [(k, [e])]
  | (k', l) :: t => if k' = k then (k', l ++ [e]) :: t else (k', l) :: addToGroup t k e

/-- The grouping loop of `group_and_sort_events`. -/
def groupFold : List PyVal → List (PyLeaf × List PyVal) →
    Except PyErr (List (PyLeaf × List PyVal))
  | [], acc => .ok acc
  | e :: rest, acc =>
    match extractService e with
    | .error err => .error err
    | .ok k => groupFold rest (addToGroup acc k e)

/-- The parsed timestamp of an event, when the event is a dict carrying a
parseable `timestamp` field. -/
def parsedTime (e : PyVal) : Option PyDateTime :=
  match e with
  | .pDict fields =>
    match pyLookup fields "timestamp" with
    | some v => parseTsVal v
    | none => none
  | _ => none

/-- The sort key of an event, as the instant CPython's comparison resolves
it to (0 for an unparseable event; such a key is only reached when the
whole key list is rejected as incomparable anyway). -/
def evKey (e : PyVal) : ℤ :=
  match parsedTime e with
  | some d => utcMicros d
  | none => 0

/-- Sort-key comparison. -/
def evLe (a b : PyVal) : Prop := evKey a ≤ evKey b

instance : DecidableRel evLe := fun a b => inferInstanceAs (Decidable (evKey a ≤ evKey b))

instance : IsTotal PyVal evLe := ⟨fun a b => le_total (evKey a) (evKey b)⟩

instance : IsTrans PyVal evLe := ⟨fun _ _ _ h₁ h₂ => le_trans h₁ h₂⟩

/-- Does the key belong to an aware datetime? -/
def keyAware : Option PyDateTime → Bool
  | some d => d.off.isSome
  | none => false

/-- Does the key belong to a naive datetime? -/
def keyNaive : Option PyDateTime → Bool
  | some d => d.off.isNone
  | none => false

/-- `events.sort(key=lambda e: parse_timestamp(e['timestamp']))` for one
group: compute every key (subscript errors propagate), then sort stably if
the keys are uniformly comparable, else `TypeError`. -/
def sortOne (l : List PyVal) : Except PyErr (List PyVal) := do
  let tvs ← l.mapM (fun e => pySubscript e "timestamp")
  let ks := tvs.map parseTsVal
  if l.length ≤ 1 then pure l
  else if ks.all keyAware || ks.all keyNaive then pure (List.insertionSort evLe l)
  else .error .typeError

/-- The per-group sorting loop of `group_and_sort_events`. -/
def sortGroups : List (PyLeaf × List PyVal) → Except PyErr (List (PyLeaf × List PyVal))
  | [] => .ok []
  | (k, l) :: t => do
    let l' ← sortOne l
    let t' ← sortGroups t
    pure ((k, l') :: t')

/-- `HeartbeatMonitor.group_and_sort_events`. -/
def group_and_sort_events (events : List PyVal) :
    Except PyErr (List (PyLeaf × List PyVal)) := do
  sortGroups (← groupFold events [])

/-- The pairwise loop of `detect_missed_heartbeats` on raw events: parse
both timestamps (subscript errors first, then `TypeError` from arithmetic
on a failed parse or on a naive/aware mix), then the gap logic. -/
def detectLoopRaw (m : HeartbeatMonitor) (svc : PyLeaf) :
    List PyVal → ℤ → Except PyErr (Option Alert)
  | e₁ :: e₂ :: rest, cm => do
    let tv₁ ← pySubscript e₁ "timestamp"
    let tv₂ ← pySubscript e₂ "timestamp"
    match parseTsVal tv₁ with
    | none => .error .typeError
    | some ct =>
      match parseTsVal tv₂ with
      | none => .error .typeError
      | some nt =>
        if nt.off.isSome = ct.off.isSome then
          if gapMissed m ct nt then
            let cm' := cm + intervalsMissed m ct nt
            if m.allowed_misses ≤ cm' then .ok (some (alertOf m svc ct))
            else detectLoopRaw m svc (e₂ :: rest) cm'
          else detectLoopRaw m svc (e₂ :: rest) 0
        else .error .typeError
  | _, _ => .ok none

/-- `HeartbeatMonitor.detect_missed_heartbeats`. -/
def detect_missed_heartbeats (m : HeartbeatMonitor) (events : List PyVal) :
    Except PyErr (Option Alert) :=
  match events with
  | [] => .ok none
  | e₀ :: _ => do
    let svc ← pySubscript e₀ "service"
    detectLoopRaw m svc events 0

/-- The alert-collection loop of `monitor`. -/
def collectAlerts (m : HeartbeatMonitor) :
    List (PyLeaf × List PyVal) → Except PyErr (List Alert)
  | [] => .ok []
  | (_, l) :: t => do
    let a ← detect_missed_heartbeats m l
    let rest ← collectAlerts m t
    pure (match a with | some x => x :: rest | none => rest)

/-- `HeartbeatMonitor.monitor`. -/
def monitor (m : HeartbeatMonitor) (events : List PyVal) : Except PyErr (List Alert) := do
  collectAlerts m (← group_and_sort_events events)

end Heartbeat

namespace Heartbeat

/-! ### Derived definitions and concrete fixtures -/

/-- A well-formed heartbeat event record. -/
def mkEv (s t : String) : PyVal := .pDict [("service", .pStr s), ("timestamp", .pStr t)]

/-- The detector configuration used throughout the test suite:
interval 60 seconds, 3 allowed misses. -/
def cfg60x3 : HeartbeatMonitor := ⟨60, 3⟩

/-- The event batch of `test_working_alert_case`. -/
def emailBatch : List PyVal :=
  [mkEv "email" "2025-08-04T10:00:00Z", mkEv "email" "2025-08-04T10:01:00Z",
   mkEv "email" "2025-08-04T10:02:00Z", mkEv "email" "2025-08-04T10:06:00Z"]

/-- The event batch of `test_malformed_events`: one valid event, then a
record missing `timestamp`, one missing `service`, a bad timestamp, an
empty service, `None`, a plain string, and a final valid event. -/
def malformedBatch : List PyVal :=
  [mkEv "cache" "2025-08-04T10:00:00Z",
   .pDict [("service", .pStr "cache")],
   .pDict [("timestamp", .pStr "2025-08-04T10:01:00Z")],
   mkEv "cache" "invalid-timestamp",
   mkEv "" "2025-08-04T10:02:00Z",
   .pNone,
   .pStr "not a dict",
   mkEv "cache" "2025-08-04T10:03:00Z"]

/-- The event batch of `test_recovery_after_misses`: two below-threshold
miss bursts separated by on-time heartbeats. -/
def recoveryBatch : List PyVal :=
  [mkEv "monitor" "2025-08-04T10:00:00Z", mkEv "monitor" "2025-08-04T10:03:00Z",
   mkEv "monitor" "2025-08-04T10:04:00Z", mkEv "monitor" "2025-08-04T10:05:00Z",
   mkEv "monitor" "2025-08-04T10:08:00Z"]

/-- Two events with an explicit non-UTC offset and a three-interval gap. -/
def tzBatch : List PyVal :=
  [mkEv "tz" "2025-08-04T15:30:00+05:30", mkEv "tz" "2025-08-04T15:34:00+05:30"]

/-- The event batch of `test_unordered_input` (scrambled order). -/
def apiScrambled : List PyVal :=
  [mkEv "api" "2025-08-04T10:06:00Z", mkEv "api" "2025-08-04T10:00:00Z",
   mkEv "api" "2025-08-04T10:02:00Z", mkEv "api" "2025-08-04T10:01:00Z"]

/-- The same events in chronological order. -/
def apiOrdered : List PyVal :=
  [mkEv "api" "2025-08-04T10:00:00Z", mkEv "api" "2025-08-04T10:01:00Z",
   mkEv "api" "2025-08-04T10:02:00Z", mkEv "api" "2025-08-04T10:06:00Z"]

/-- Three valid events of one service: two spellings of the same instant
(`10:00:00Z` and `15:30:00+05:30`) followed by a qualifying gap. -/
def mixBatchA : List PyVal :=
  [mkEv "x" "2025-08-04T10:00:00Z", mkEv "x" "2025-08-04T15:30:00+05:30",
   mkEv "x" "2025-08-04T10:04:00Z"]

/-- `mixBatchA` with the two equal-instant events swapped. -/
def mixBatchB : List PyVal :=
  [mkEv "x" "2025-08-04T15:30:00+05:30", mkEv "x" "2025-08-04T10:00:00Z",
   mkEv "x" "2025-08-04T10:04:00Z"]

/-- First-match association lookup into the grouping accumulator (the
accumulator never holds duplicate keys, so first match is the match). -/
def lookupG (gs : List (PyLeaf × List PyVal)) (k : PyLeaf) : List PyVal :=
  match gs with
  | [] => []
  | (k₀, l) :: t => if k₀ = k then l else lookupG t k

/-- Two monitor results agree up to reordering of alerts: both succeed
with the same multiset of alerts, or both fail with the same error class. -/
def exceptPerm (r₁ r₂ : Except PyErr (List Alert)) : Prop :=
  match r₁, r₂ with
  | .ok a₁, .ok a₂ => List.Perm a₁ a₂
  | .error e₁, .error e₂ => e₁ = e₂
  | _, _ => False

/-- The value a group's sort produces when its keys are comparable. -/
def sortedList (l : List PyVal) : List PyVal :=
  if l.length ≤ 1 then l else List.insertionSort evLe l

/-- The datetime determined by a sort key (UTC-instant microseconds) and a
common UTC offset. -/
def reconDT (c : Option ℤ) (z : ℤ) : PyDateTime :=
  match c with
  | some o => ⟨z + o * 1000000, some o⟩
  | none => ⟨z, none⟩

/-- The parsed timestamp of an event, defaulting (never reached under the
hypotheses it is used with). -/
def parsedDT (e : PyVal) : PyDateTime := (parsedTime e).getD default

/-! ### Basic helper lemmas -/

theorem utcMicros_addSeconds (d : PyDateTime) (k : ℤ) :
    utcMicros (pyAddSeconds d k) = utcMicros d + k * 1000000 := by
  simp [utcMicros, pyAddSeconds]; ring

theorem off_addSeconds (d : PyDateTime) (k : ℤ) : (pyAddSeconds d k).off = d.off := rfl

/-- `pyRound` returns an integer at least as close to its argument as any
other integer (in particular it is a nearest integer; at a half-integer
both neighbours are equally close). -/
theorem pyRound_nearest (x : ℚ) (z : ℤ) : |(pyRound x : ℚ) - x| ≤ |(z : ℚ) - x| := by
  have hfl : (⌊x⌋ : ℚ) ≤ x := Int.floor_le x
  have hfu : x < ⌊x⌋ + 1 := Int.lt_floor_add_one x
  have hfr : Int.fract x = x - ⌊x⌋ := (Int.self_sub_floor x).symm
  have hz : z ≤ ⌊x⌋ ∨ ⌊x⌋ + 1 ≤ z := by omega
  have hzc : (z : ℚ) ≤ (⌊x⌋ : ℚ) ∨ (⌊x⌋ : ℚ) + 1 ≤ (z : ℚ) := by
    rcases hz with h | h
    · exact Or.inl (by exact_mod_cast h)
    · exact Or.inr (by exact_mod_cast h)
  unfold pyRound
  split_ifs with h₁ h₂ h₃ <;> rw [hfr] at *
  · rcases hzc with h | h
    · rw [abs_of_nonpos (by linarith), abs_of_nonpos (by linarith)]; linarith
    · rw [abs_of_nonpos (by linarith), abs_of_nonneg (by push_cast; linarith)]
      push_cast
      linarith
  · rcases hzc with h | h
    · rw [abs_of_nonneg (by push_cast; linarith), abs_of_nonpos (by linarith)]
      push_cast
      linarith
    · rw [abs_of_nonneg (by push_cast; linarith), abs_of_nonneg (by push_cast; linarith)]
      push_cast
      linarith
  · have he : x - ⌊x⌋ = 1 / 2 := by linarith
    rcases hzc with h | h
    · rw [abs_of_nonpos (by linarith), abs_of_nonpos (by linarith)]; linarith
    · rw [abs_of_nonpos (by linarith), abs_of_nonneg (by push_cast; linarith)]
      push_cast
      linarith
  · have he : x - ⌊x⌋ = 1 / 2 := by linarith
    rcases hzc with h | h
    · rw [abs_of_nonneg (by push_cast; linarith), abs_of_nonpos (by linarith)]
      push_cast
      linarith
    · rw [abs_of_nonneg (by push_cast; linarith), abs_of_nonneg (by push_cast; linarith)]
      push_cast
      linarith

/-- Appending `Z` and appending `+00:00` to the same prefix parse alike:
the wrapper rewrites the trailing `Z` to `+00:00` before parsing. -/
theorem parse_timestamp_z_eq (s : String) :
    parse_timestamp (s ++ "Z") = parse_timestamp (s ++ "+00:00") := by
  have hdataZ : (s ++ "Z").data = s.data ++ ['Z'] := String.data_append s "Z"
  have hdataO : (s ++ "+00:00").data = s.data ++ ['+', '0', '0', ':', '0', '0'] :=
    String.data_append s "+00:00"
  have h1 : (s.data ++ ['Z']).getLast? = some 'Z' := List.getLast?_concat _
  have h2 : (s.data ++ ['+', '0', '0', ':', '0', '0']).getLast? = some '0' := by
    have hsplit : s.data ++ ['+', '0', '0', ':', '0', '0']
        = (s.data ++ ['+', '0', '0', ':', '0']) ++ ['0'] := by simp
    rw [hsplit, List.getLast?_concat]
  unfold parse_timestamp
  rw [hdataZ, hdataO]
  simp only [h1, h2, List.dropLast_concat]
  rfl

theorem deviation_eq_deviationUs (m : HeartbeatMonitor) (d₁ d₂ : PyDateTime) :
    deviation m d₁ d₂ = ((deviationUs m d₁ d₂ : ℤ) : ℚ) / 1000000 := rfl

/-- Floor of an integer quotient of rationals is integer floor division. -/
theorem floor_intCast_div_int (p q : ℤ) (hq : 0 < q) : ⌊(p : ℚ) / (q : ℚ)⌋ = p / q := by
  have hq' : ((q.toNat : ℤ)) = q := Int.toNat_of_nonneg hq.le
  have hcast : (q : ℚ) = ((q.toNat : ℕ) : ℚ) := by exact_mod_cast hq'.symm
  rw [hcast, Rat.floor_intCast_div_natCast, hq']

/-- The integer rounding used by the executable scanner agrees with
`pyRound` on the rational quotient. -/
theorem pyRoundRatio_eq_pyRound (p q : ℤ) (hq : 0 < q) :
    pyRoundRatio p q = pyRound ((p : ℚ) / (q : ℚ)) := by
  have hqQ : (0 : ℚ) < (q : ℚ) := by exact_mod_cast hq
  have hfl : ⌊(p : ℚ) / (q : ℚ)⌋ = p / q := floor_intCast_div_int p q hq
  have hfr : Int.fract ((p : ℚ) / (q : ℚ)) = ((p - q * (p / q) : ℤ) : ℚ) / (q : ℚ) := by
    rw [Int.fract, hfl]
    push_cast
    field_simp
  have h1 : (Int.fract ((p : ℚ) / (q : ℚ)) < 1 / 2) ↔ (2 * (p - q * (p / q)) < q) := by
    rw [hfr, div_lt_div_iff hqQ (by norm_num : (0 : ℚ) < 2)]
    rw [show ((p - q * (p / q) : ℤ) : ℚ) * 2 = ((2 * (p - q * (p / q)) : ℤ) : ℚ) from by
      push_cast
      ring]
    rw [one_mul]
    exact Int.cast_lt
  have h2 : (1 / 2 < Int.fract ((p : ℚ) / (q : ℚ))) ↔ (q < 2 * (p - q * (p / q))) := by
    rw [hfr, div_lt_div_iff (by norm_num : (0 : ℚ) < 2) hqQ]
    rw [show ((p - q * (p / q) : ℤ) : ℚ) * 2 = ((2 * (p - q * (p / q)) : ℤ) : ℚ) from by
      push_cast
      ring]
    rw [one_mul]
    exact Int.cast_lt
  simp only [pyRound, pyRoundRatio, hfl, h1, h2]

/-- The integer late-arrival test is the source's rational comparison
`time_diff >= expected_interval_seconds * 0.9`. -/
theorem gapMissed_iff_rat (m : HeartbeatMonitor) (d₁ d₂ : PyDateTime) :
    gapMissed m d₁ d₂ = true ↔
      (m.expected_interval_seconds : ℚ) * 0.9 ≤ deviation m d₁ d₂ := by
  unfold gapMissed
  rw [decide_eq_true_iff, deviation_eq_deviationUs,
    le_div_iff (by norm_num : (0 : ℚ) < 1000000)]
  constructor
  · intro h
    have h' : ((9 * (m.expected_interval_seconds * 1000000) : ℤ) : ℚ) ≤
        ((10 * deviationUs m d₁ d₂ : ℤ) : ℚ) := by exact_mod_cast h
    push_cast at h'
    nlinarith
  · intro h
    have h' : ((9 * (m.expected_interval_seconds * 1000000) : ℤ) : ℚ) ≤
        ((10 * deviationUs m d₁ d₂ : ℤ) : ℚ) := by
      push_cast
      nlinarith
    exact_mod_cast h'

/-- The integer miss count is `pyRound` of the rational quotient
`time_diff / expected_interval_seconds`. -/
theorem intervalsMissed_eq_pyRound (m : HeartbeatMonitor) (d₁ d₂ : PyDateTime)
    (hpos : 0 < m.expected_interval_seconds) :
    intervalsMissed m d₁ d₂ =
      pyRound (deviation m d₁ d₂ / (m.expected_interval_seconds : ℚ)) := by
  have hq : (0 : ℤ) < m.expected_interval_seconds * 1000000 :=
    mul_pos hpos (by norm_num)
  have hne : ((m.expected_interval_seconds : ℤ) : ℚ) ≠ 0 := by
    exact_mod_cast hpos.ne.symm
  unfold intervalsMissed
  rw [pyRoundRatio_eq_pyRound _ _ hq]
  congr 1
  rw [deviation_eq_deviationUs, div_div]
  push_cast
  ring

/-! ### C9: constructor validation -/

/-- C9: constructing the detector fails with the configuration error
exactly when `expected_interval_seconds <= 0` or `allowed_misses <= 0` (no
object is produced on failure, since the result is an `Except` error), and
with both strictly positive it succeeds and stores both values unchanged. -/
theorem claim_C9 (i a : ℤ) :
    (HeartbeatMonitor.init i a = .error .valueError ↔ i ≤ 0 ∨ a ≤ 0) ∧
    (0 < i → 0 < a → HeartbeatMonitor.init i a = .ok ⟨i, a⟩) := by
  constructor
  · unfold HeartbeatMonitor.init
    split_ifs with h₁ h₂ <;> simp <;> omega
  · intro hi ha
    unfold HeartbeatMonitor.init
    rw [if_neg (by omega), if_neg (by omega)]

theorem claim_C9_witness :
    HeartbeatMonitor.init 60 3 = .ok ⟨60, 3⟩ ∧
    HeartbeatMonitor.init 0 3 = .error .valueError ∧
    HeartbeatMonitor.init 60 (-1) = .error .valueError :=
  ⟨(claim_C9 60 3).2 (by norm_num) (by norm_num),
   (claim_C9 0 3).1.mpr (Or.inl (by norm_num)),
   (claim_C9 60 (-1)).1.mpr (Or.inr (by norm_num))⟩

/-! ### C2: `monitor` on arbitrarily shaped input -/

/-- C2 fails on the code: `monitor` performs no validation (validation is
wired only into `load_events`), so on the malformed batch that the test
suite itself feeds to `monitor`, `event['service']` raises `KeyError` at
the record with no `service` field and the exception escapes `monitor`.
The batch does contain exactly the 2 valid events the test expects. -/
theorem claim_C2 :
    monitor cfg60x3 malformedBatch = .error .keyError ∧
    (malformedBatch.filter validate_event).length = 2 := by
  constructor <;> decide

/-! ### C7: timestamp parsing -/

/-- C7 as stated is false: the naive notation with no trailing `Z` and no
numeric offset also parses successfully (to a naive datetime, `off = none`,
so the accepted string carries neither of the two claimed UTC notations). -/
theorem claim_C7_cex :
    (parse_timestamp "2025-08-04T10:00:00").map PyDateTime.off = some none ∧
    ("2025-08-04T10:00:00" : String).data.getLast? ≠ some 'Z' := by
  refine ⟨by decide, by decide⟩

/-- C7, amended: parsing accepts the trailing-`Z` notation by rewriting it
to `+00:00` (so a `Z` string parses exactly like the corresponding
explicit-offset string, to the same instant), accepts explicit numeric UTC
offsets, and additionally accepts offset-free (naive) ISO-8601 strings,
including date-only strings; ill-formed or out-of-range strings yield
`none` (a parse failure value, not an exception — the model's parser is a
total function, as the source catches every raised exception class). -/
theorem claim_C7 :
    (∀ s : String, parse_timestamp (s ++ "Z") = parse_timestamp (s ++ "+00:00")) ∧
    parse_timestamp "2025-08-04T10:00:00Z" = some ⟨1754301600000000, some 0⟩ ∧
    parse_timestamp "2025-08-04T10:00:00+00:00" = some ⟨1754301600000000, some 0⟩ ∧
    parse_timestamp "2025-08-04T15:30:00+05:30" = some ⟨1754321400000000, some 19800⟩ ∧
    parse_timestamp "2025-08-04T10:00:00" = some ⟨1754301600000000, none⟩ ∧
    parse_timestamp "2025-08-04" = some ⟨1754265600000000, none⟩ ∧
    parse_timestamp "invalid-timestamp" = none ∧
    parse_timestamp "2025-13-99T99:99:99Z" = none ∧
    parse_timestamp "2025-02-30T10:00:00Z" = none :=
  ⟨parse_timestamp_z_eq, by decide, by decide, by decide, by decide, by decide,
   by decide, by decide, by decide⟩

/-! ### C3: the late-arrival test and the miss count -/

/-- C3: an adjacent pair is treated as containing missed heartbeats exactly
when the deviation reaches nine tenths of the expected interval (the `0.9`
factor is exact), and in that case the amount added to the running counter
is `pyRound` of `deviation / interval` — an integer at least as close to
that quotient as every other integer, i.e. nearest-integer rounding (the
model fixes CPython's ties-to-even; ties are unspecified by the claim). -/
theorem claim_C3 (m : HeartbeatMonitor) (d₁ d₂ : PyDateTime) (cm : ℤ)
    (hpos : 0 < m.expected_interval_seconds) :
    (gapMissed m d₁ d₂ = true ↔
      9 * (m.expected_interval_seconds : ℚ) ≤ 10 * deviation m d₁ d₂) ∧
    (cmScan m [d₁, d₂] cm =
      [if gapMissed m d₁ d₂ then cm + intervalsMissed m d₁ d₂ else 0]) ∧
    (∀ z : ℤ,
      |(intervalsMissed m d₁ d₂ : ℚ) - deviation m d₁ d₂ / (m.expected_interval_seconds : ℚ)|
        ≤ |(z : ℚ) - deviation m d₁ d₂ / (m.expected_interval_seconds : ℚ)|) := by
  refine ⟨?_, by simp [cmScan], fun z => ?_⟩
  · rw [gapMissed_iff_rat]
    constructor <;> intro h <;> nlinarith [h]
  · rw [intervalsMissed_eq_pyRound m d₁ d₂ hpos]
    exact pyRound_nearest _ z

theorem claim_C3_witness :
    (gapMissed cfg60x3 ⟨0, some 0⟩ ⟨240000000, some 0⟩ = true ↔
      9 * ((cfg60x3.expected_interval_seconds : ℚ)) ≤
        10 * deviation cfg60x3 ⟨0, some 0⟩ ⟨240000000, some 0⟩) ∧
    (cmScan cfg60x3 [⟨0, some 0⟩, ⟨240000000, some 0⟩] 0 =
      [if gapMissed cfg60x3 ⟨0, some 0⟩ ⟨240000000, some 0⟩ then
        0 + intervalsMissed cfg60x3 ⟨0, some 0⟩ ⟨240000000, some 0⟩ else 0]) ∧
    (∀ z : ℤ,
      |(intervalsMissed cfg60x3 ⟨0, some 0⟩ ⟨240000000, some 0⟩ : ℚ) -
          deviation cfg60x3 ⟨0, some 0⟩ ⟨240000000, some 0⟩ /
            ((cfg60x3.expected_interval_seconds : ℚ))|
        ≤ |(z : ℚ) - deviation cfg60x3 ⟨0, some 0⟩ ⟨240000000, some 0⟩ /
            ((cfg60x3.expected_interval_seconds : ℚ))|) :=
  claim_C3 cfg60x3 ⟨0, some 0⟩ ⟨240000000, some 0⟩ 0 (by norm_num [cfg60x3])

/-! ### C4: the reset law -/

/-- C4: an on-time (below-tolerance) pair resets `consecutive_misses` to 0
whatever was accumulated before, and the scan continues from that pair's
second event with counter 0; consequently the recovery batch — two
below-threshold bursts separated by on-time heartbeats, five lifetime
misses in total — produces no alert. -/
theorem claim_C4 :
    (∀ (m : HeartbeatMonitor) (svc : PyLeaf) (d₁ d₂ : PyDateTime)
        (rest : List PyDateTime) (cm : ℤ),
      gapMissed m d₁ d₂ = false →
        cmScan m (d₁ :: d₂ :: rest) cm = 0 :: cmScan m (d₂ :: rest) 0 ∧
        detectCore m svc (d₁ :: d₂ :: rest) cm = detectCore m svc (d₂ :: rest) 0) ∧
    monitor cfg60x3 recoveryBatch = .ok [] := by
  refine ⟨fun m svc d₁ d₂ rest cm h => ⟨?_, ?_⟩, by decide⟩
  · rw [cmScan, h]
    simp
  · rw [detectCore, h]
    simp

theorem claim_C4_witness :
    cmScan cfg60x3 [⟨0, some 0⟩, ⟨60000000, some 0⟩] 5 =
        0 :: cmScan cfg60x3 [⟨60000000, some 0⟩] 0 ∧
    detectCore cfg60x3 (.pStr "s") [⟨0, some 0⟩, ⟨60000000, some 0⟩] 5 =
        detectCore cfg60x3 (.pStr "s") [⟨60000000, some 0⟩] 0 :=
  claim_C4.1 cfg60x3 (.pStr "s") ⟨0, some 0⟩ ⟨60000000, some 0⟩ [] 5 (by decide)

/-! ### C10: duplicate timestamps -/

/-- C10: a pair of events at the same instant has deviation exactly
`-expected_interval`, which is below the tolerance for any positive
interval, so the pair resets the streak exactly like an on-time heartbeat. -/
theorem claim_C10 (m : HeartbeatMonitor) (svc : PyLeaf) (d₁ d₂ : PyDateTime)
    (rest : List PyDateTime) (cm : ℤ)
    (hpos : 0 < m.expected_interval_seconds) (heq : utcMicros d₁ = utcMicros d₂) :
    deviation m d₁ d₂ = -(m.expected_interval_seconds : ℚ) ∧
    gapMissed m d₁ d₂ = false ∧
    cmScan m (d₁ :: d₂ :: rest) cm = 0 :: cmScan m (d₂ :: rest) 0 ∧
    detectCore m svc (d₁ :: d₂ :: rest) cm = detectCore m svc (d₂ :: rest) 0 := by
  have hdUs : deviationUs m d₁ d₂ = -(m.expected_interval_seconds * 1000000) := by
    unfold deviationUs
    rw [utcMicros_addSeconds, heq]
    ring
  have hdev : deviation m d₁ d₂ = -(m.expected_interval_seconds : ℚ) := by
    rw [deviation_eq_deviationUs, hdUs]
    push_cast
    rw [neg_div, mul_div_assoc]
    norm_num
  have hgm : gapMissed m d₁ d₂ = false := by
    unfold gapMissed
    rw [decide_eq_false_iff_not]
    intro hcon
    rw [hdUs] at hcon
    omega
  refine ⟨hdev, hgm, ?_, ?_⟩
  · rw [cmScan, hgm]
    simp
  · rw [detectCore, hgm]
    simp

theorem claim_C10_witness :
    deviation cfg60x3 ⟨3, some 0⟩ ⟨3, some 0⟩ = -((cfg60x3.expected_interval_seconds : ℚ)) ∧
    gapMissed cfg60x3 ⟨3, some 0⟩ ⟨3, some 0⟩ = false ∧
    cmScan cfg60x3 [⟨3, some 0⟩, ⟨3, some 0⟩, ⟨7, some 0⟩] 2 =
        0 :: cmScan cfg60x3 [⟨3, some 0⟩, ⟨7, some 0⟩] 0 ∧
    detectCore cfg60x3 (.pStr "s") [⟨3, some 0⟩, ⟨3, some 0⟩, ⟨7, some 0⟩] 2 =
        detectCore cfg60x3 (.pStr "s") [⟨3, some 0⟩, ⟨7, some 0⟩] 0 :=
  claim_C10 cfg60x3 (.pStr "s") ⟨3, some 0⟩ ⟨3, some 0⟩ [⟨7, some 0⟩] 2
    (by norm_num [cfg60x3]) rfl

/-! ### C1: first threshold crossing -/

/-- The length of the pairwise scan. -/
theorem cmScan_length (m : HeartbeatMonitor) :
    ∀ (ds : List PyDateTime) (cm : ℤ), (cmScan m ds cm).length = ds.length - 1 := by
  intro ds
  induction ds with
  | nil => intro cm; rfl
  | cons d₁ tail ih =>
    intro cm
    cases tail with
    | nil => rfl
    | cons d₂ rest =>
      rw [cmScan]
      simp only [List.length_cons]
      rw [ih]
      simp

/-- If the running miss counter stays below the threshold before index `j`
and reaches it at `j`, the scanner returns the alert of pair `j` — the
first qualifying gap. -/
theorem detectCore_first_cross (m : HeartbeatMonitor) (svc : PyLeaf) :
    ∀ (ds : List PyDateTime) (cm : ℤ) (j : ℕ),
      0 < m.allowed_misses →
      j + 1 < ds.length →
      (∀ i, i < j → (cmScan m ds cm).getD i 0 < m.allowed_misses) →
      m.allowed_misses ≤ (cmScan m ds cm).getD j 0 →
      detectCore m svc ds cm = some (alertOf m svc (ds.getD j default)) := by
  intro ds
  induction ds with
  | nil =>
    intro cm j _ hj _ _
    simp at hj
  | cons d₁ tail ih =>
    intro cm j hpos hj hfirst hcross
    cases tail with
    | nil => simp at hj
    | cons d₂ rest =>
      rw [cmScan] at hfirst hcross
      by_cases hg : gapMissed m d₁ d₂
      · rw [if_pos hg] at hfirst hcross
        cases j with
        | zero =>
          simp only [List.getD_cons_zero] at hcross
          rw [detectCore, if_pos hg, if_pos hcross]
          simp
        | succ j' =>
          have h0 : cm + intervalsMissed m d₁ d₂ < m.allowed_misses := by
            have := hfirst 0 (Nat.succ_pos j')
            simpa using this
          rw [detectCore, if_pos hg, if_neg (by omega)]
          have htail := ih (cm + intervalsMissed m d₁ d₂) j' hpos
            (by simpa using hj)
            (fun i hi => by simpa using hfirst (i + 1) (by omega))
            (by simpa using hcross)
          rw [htail]
          simp
      · rw [if_neg hg] at hfirst hcross
        cases j with
        | zero =>
          simp only [List.getD_cons_zero] at hcross
          omega
        | succ j' =>
          rw [detectCore, if_neg hg]
          have htail := ih 0 j' hpos
            (by simpa using hj)
            (fun i hi => by simpa using hfirst (i + 1) (by omega))
            (by simpa using hcross)
          rw [htail]
          simp

/-- C1: whenever some adjacent pair accumulates `consecutive_misses` to
the threshold, the scanner returns exactly one alert, at the first
qualifying pair `j`, with `alert_at` rendered from
`expected_next + (allowed_misses - 1) * expected_interval` (the nominal
instant of the last tolerated heartbeat — `alertOf` is literally that
formula), and later gaps are never reached; concretely, the email batch
with interval 60 and 3 allowed misses yields exactly one alert at
`2025-08-04T10:05:00Z`, not at the late event's `10:06:00Z`. -/
theorem claim_C1 :
    (∀ (m : HeartbeatMonitor) (svc : PyLeaf) (ds : List PyDateTime) (j : ℕ),
      0 < m.allowed_misses →
      j + 1 < ds.length →
      (∀ i, i < j → (cmScan m ds 0).getD i 0 < m.allowed_misses) →
      m.allowed_misses ≤ (cmScan m ds 0).getD j 0 →
      detectCore m svc ds 0 = some (alertOf m svc (ds.getD j default))) ∧
    monitor cfg60x3 emailBatch = .ok [⟨.pStr "email", "2025-08-04T10:05:00Z"⟩] := by
  refine ⟨fun m svc ds j hpos hj hfirst hcross =>
    detectCore_first_cross m svc ds 0 j hpos hj hfirst hcross, by decide⟩

theorem claim_C1_witness :
    detectCore cfg60x3 (.pStr "email")
        [⟨1754301600000000, some 0⟩, ⟨1754301660000000, some 0⟩,
         ⟨1754301720000000, some 0⟩, ⟨1754301960000000, some 0⟩] 0 =
      some (alertOf cfg60x3 (.pStr "email")
        ([⟨1754301600000000, some 0⟩, ⟨1754301660000000, some 0⟩,
          ⟨1754301720000000, some 0⟩,
          (⟨1754301960000000, some 0⟩ : PyDateTime)].getD 2 default)) :=
  claim_C1.1 cfg60x3 (.pStr "email")
    [⟨1754301600000000, some 0⟩, ⟨1754301660000000, some 0⟩,
     ⟨1754301720000000, some 0⟩, ⟨1754301960000000, some 0⟩] 2
    (by decide) (by decide) (fun i hi => by interval_cases i <;> decide) (by decide)

/-! ### C8: alert formatting -/

theorem digitChar_mod10_isDigit (n : ℕ) : (Nat.digitChar (n % 10)).isDigit = true := by
  have h : n % 10 < 10 := Nat.mod_lt _ (by norm_num)
  set k := n % 10 with hk
  interval_cases k <;> rfl

/-- Every string the formatter produces has the ISO-8601 second-precision
shape with a trailing `Z`. -/
theorem isIsoSecondZ_fmtWallZ (wall : ℤ) : isIsoSecondZ (fmtWallZ wall) = true := by
  unfold fmtWallZ isIsoSecondZ pad4 pad2
  simp [digitChar_mod10_isDigit]

/-- Any alert the scanner emits names the scanned service, has the
ISO-8601 `Z` shape, and — when every input datetime carries UTC offset
zero — renders exactly the UTC reading of the computed alert instant. -/
theorem detectCore_alert_utc (m : HeartbeatMonitor) (svc : PyLeaf) :
    ∀ (ds : List PyDateTime) (cm : ℤ) (a : Alert),
      (∀ d ∈ ds, d.off = some 0) →
      detectCore m svc ds cm = some a →
      a.service = svc ∧ isIsoSecondZ a.alert_at = true ∧
      ∃ j, j + 1 < ds.length ∧
        a.alert_at = isoUtcString (utcMicros (pyAddSeconds (pyAddSeconds (ds.getD j default)
          m.expected_interval_seconds) (m.expected_interval_seconds * (m.allowed_misses - 1)))) := by
  intro ds
  induction ds with
  | nil =>
    intro cm a _ h
    simp [detectCore] at h
  | cons d₁ tail ih =>
    cases tail with
    | nil =>
      intro cm a _ h
      simp [detectCore] at h
    | cons d₂ rest =>
      intro cm a hoff h
      rw [detectCore] at h
      by_cases hg : gapMissed m d₁ d₂
      · rw [if_pos hg] at h
        by_cases hthr : m.allowed_misses ≤ cm + intervalsMissed m d₁ d₂
        · rw [if_pos hthr] at h
          have ha : a = alertOf m svc d₁ := (Option.some.inj h).symm
          subst ha
          refine ⟨rfl, isIsoSecondZ_fmtWallZ _, 0, by simp, ?_⟩
          have hoff₁ : d₁.off = some 0 := hoff d₁ (by simp)
          show pyStrftimeZ _ = isoUtcString _
          unfold pyStrftimeZ isoUtcString
          congr 1
          rw [utcMicros]
          simp [pyAddSeconds, hoff₁]
        · rw [if_neg hthr] at h
          obtain ⟨hsvc, hshape, j, hj, hat⟩ := ih (cm + intervalsMissed m d₁ d₂) a
            (fun d hd => hoff d (List.mem_cons_of_mem _ hd)) h
          exact ⟨hsvc, hshape, j + 1, by simpa using hj, by simpa using hat⟩
      · rw [if_neg hg] at h
        obtain ⟨hsvc, hshape, j, hj, hat⟩ := ih 0 a
          (fun d hd => hoff d (List.mem_cons_of_mem _ hd)) h
        exact ⟨hsvc, hshape, j + 1, by simpa using hj, by simpa using hat⟩

/-- C8 as stated is false for non-zero input offsets: on two `+05:30`
events the returned `alert_at` renders the computed alert time's local
wall clock with a `Z` suffix (`strftime` never converts to UTC), while the
UTC reading of that computed instant is five and a half hours earlier. -/
theorem claim_C8_cex :
    monitor cfg60x3 tzBatch = .ok [⟨.pStr "tz", "2025-08-04T15:33:00Z"⟩] ∧
    isoUtcString (utcMicros (pyAddSeconds (pyAddSeconds
        ((parse_timestamp "2025-08-04T15:30:00+05:30").getD default)
        cfg60x3.expected_interval_seconds)
        (cfg60x3.expected_interval_seconds * (cfg60x3.allowed_misses - 1))))
      = "2025-08-04T10:03:00Z" ∧
    ("2025-08-04T15:33:00Z" : String) ≠ "2025-08-04T10:03:00Z" := by
  refine ⟨by decide, by decide, by decide⟩

/-- C8, amended: every alert exposes the scanned service and an `alert_at`
of ISO-8601 second-precision shape with trailing `Z`; the instant rendered
is the wall clock of the computed alert time in the input's own offset
(`strftime` does not convert), which coincides with the UTC reading
exactly when the accepted input timestamps carry UTC offset zero (the
`Z` and `+00:00` notations). -/
theorem claim_C8 (m : HeartbeatMonitor) (svc : PyLeaf) (ds : List PyDateTime) (a : Alert)
    (hoff : ∀ d ∈ ds, d.off = some 0)
    (h : detectCore m svc ds 0 = some a) :
    a.service = svc ∧ isIsoSecondZ a.alert_at = true ∧
    ∃ j, j + 1 < ds.length ∧
      a.alert_at = isoUtcString (utcMicros (pyAddSeconds (pyAddSeconds (ds.getD j default)
        m.expected_interval_seconds) (m.expected_interval_seconds * (m.allowed_misses - 1)))) :=
  detectCore_alert_utc m svc ds 0 a hoff h

theorem claim_C8_witness :
    (Alert.mk (.pStr "email") "2025-08-04T10:05:00Z").service = .pStr "email" ∧
    isIsoSecondZ (Alert.mk (.pStr "email") "2025-08-04T10:05:00Z").alert_at = true :=
  have H := claim_C8 cfg60x3 (.pStr "email")
    [⟨1754301600000000, some 0⟩, ⟨1754301660000000, some 0⟩,
     ⟨1754301720000000, some 0⟩, ⟨1754301960000000, some 0⟩]
    ⟨.pStr "email", "2025-08-04T10:05:00Z"⟩
    (by decide) (by decide)
  ⟨H.1, H.2.1⟩

/-! ### Grouping and pipeline lemmas -/

theorem except_bind_ok {ε α β : Type} (a : α) (f : α → Except ε β) :
    (Except.ok a >>= f : Except ε β) = f a := rfl

theorem except_bind_error {ε α β : Type} (err : ε) (f : α → Except ε β) :
    (Except.error err >>= f : Except ε β) = Except.error err := rfl

theorem addToGroup_fst (gs : List (PyLeaf × List PyVal)) (k : PyLeaf) (e : PyVal) :
    (addToGroup gs k e).map Prod.fst =
      if k ∈ gs.map Prod.fst then gs.map Prod.fst else gs.map Prod.fst ++ [k] := by
  induction gs with
  | nil => simp [addToGroup]
  | cons p t ih =>
    obtain ⟨k₀, l⟩ := p
    by_cases hk : k₀ = k
    · subst hk
      simp [addToGroup]
    · simp only [addToGroup, if_neg hk, List.map_cons, ih]
      by_cases hmem : k ∈ t.map Prod.fst
      · rw [if_pos hmem, if_pos (by simp [hmem])]
      · rw [if_neg hmem, if_neg (by simp [hmem, Ne.symm hk])]
        simp

theorem lookupG_addToGroup (gs : List (PyLeaf × List PyVal)) (k k' : PyLeaf) (e : PyVal) :
    lookupG (addToGroup gs k e) k' =
      if k' = k then lookupG gs k ++ [e] else lookupG gs k' := by
  induction gs with
  | nil =>
    by_cases hk : k' = k
    · subst hk
      simp [addToGroup, lookupG]
    · simp [addToGroup, lookupG, hk, Ne.symm hk]
  | cons p t ih =>
    obtain ⟨k₀, l⟩ := p
    by_cases hk₀ : k₀ = k
    · subst hk₀
      by_cases hk : k' = k₀
      · subst hk
        simp [addToGroup, lookupG]
      · simp [addToGroup, lookupG, hk, Ne.symm hk]
    · by_cases hk : k' = k₀
      · subst hk
        simp [addToGroup, lookupG, hk₀, Ne.symm hk₀]
      · simp [addToGroup, lookupG, hk₀, hk, Ne.symm hk, ih]

theorem groupFold_lookupG :
    ∀ (events : List PyVal) (acc gs : List (PyLeaf × List PyVal)),
      groupFold events acc = .ok gs →
      ∀ k, lookupG gs k = lookupG acc k ++
        events.filter (fun e => decide (extractService e = .ok k)) := by
  intro events
  induction events with
  | nil =>
    intro acc gs h k
    rw [groupFold] at h
    cases h
    simp
  | cons e rest ih =>
    intro acc gs h k
    rw [groupFold] at h
    cases hex : extractService e with
    | error err => rw [hex] at h; cases h
    | ok ke =>
      rw [hex] at h
      have hrec := ih (addToGroup acc ke e) gs h k
      rw [hrec, lookupG_addToGroup, List.filter_cons]
      by_cases hk : k = ke
      · subst hk
        rw [if_pos rfl]
        simp [hex]
      · rw [if_neg hk]
        have : (decide (extractService e = .ok k)) = false := by
          simp [hex]
          exact fun h' => hk h'.symm
        rw [this]
        simp

theorem groupFold_nodup :
    ∀ (events : List PyVal) (acc gs : List (PyLeaf × List PyVal)),
      groupFold events acc = .ok gs →
      (acc.map Prod.fst).Nodup → (gs.map Prod.fst).Nodup := by
  intro events
  induction events with
  | nil =>
    intro acc gs h hnd
    rw [groupFold] at h
    cases h
    exact hnd
  | cons e rest ih =>
    intro acc gs h hnd
    rw [groupFold] at h
    cases hex : extractService e with
    | error err => rw [hex] at h; cases h
    | ok ke =>
      rw [hex] at h
      refine ih (addToGroup acc ke e) gs h ?_
      rw [addToGroup_fst]
      by_cases hmem : ke ∈ acc.map Prod.fst
      · rw [if_pos hmem]; exact hnd
      · rw [if_neg hmem]
        simp [List.nodup_append, hnd, hmem]

theorem lookupG_eq_of_mem :
    ∀ (gs : List (PyLeaf × List PyVal)) (k : PyLeaf) (l : List PyVal),
      (k, l) ∈ gs → (gs.map Prod.fst).Nodup → lookupG gs k = l := by
  intro gs
  induction gs with
  | nil => intro k l h _; cases h
  | cons p t ih =>
    intro k l h hnd
    obtain ⟨k₀, l₀⟩ := p
    rcases List.mem_cons.1 h with heq | htail
    · cases heq
      simp [lookupG]
    · have hnd' := List.nodup_cons.1 (show (k₀ :: t.map Prod.fst).Nodup by simpa using hnd)
      have hk : k₀ ≠ k := by
        intro hc
        subst hc
        exact hnd'.1 (List.mem_map.2 ⟨(k₀, l), htail, rfl⟩)
      simp only [lookupG, if_neg hk]
      exact ih k l htail hnd'.2

theorem sortOne_perm (l l' : List PyVal) (h : sortOne l = .ok l') : List.Perm l' l := by
  unfold sortOne at h
  cases hm : l.mapM (fun e => pySubscript e "timestamp") with
  | error err =>
    rw [hm] at h
    simp only [except_bind_error] at h
    cases h
  | ok tvs =>
    rw [hm] at h
    simp only [except_bind_ok] at h
    split at h
    · cases h
      exact List.Perm.refl l
    · split at h
      · cases h
        exact List.perm_insertionSort evLe l
      · cases h

theorem sortGroups_mem :
    ∀ (gs gs' : List (PyLeaf × List PyVal)) (k : PyLeaf) (l' : List PyVal),
      sortGroups gs = .ok gs' → (k, l') ∈ gs' →
      ∃ l, (k, l) ∈ gs ∧ sortOne l = .ok l' := by
  intro gs
  induction gs with
  | nil =>
    intro gs' k l' h hmem
    rw [sortGroups] at h
    cases h
    cases hmem
  | cons p t ih =>
    intro gs' k l' h hmem
    obtain ⟨k₀, l₀⟩ := p
    rw [sortGroups] at h
    cases hs : sortOne l₀ with
    | error err =>
      rw [hs] at h
      simp only [except_bind_error] at h
      cases h
    | ok l₀' =>
      rw [hs] at h
      simp only [except_bind_ok] at h
      cases ht : sortGroups t with
      | error err =>
        rw [ht] at h
        simp only [except_bind_error] at h
        cases h
      | ok t' =>
        rw [ht] at h
        simp only [except_bind_ok] at h
        cases h
        rcases List.mem_cons.1 hmem with heq | htail
        · cases heq
          exact ⟨l₀, List.mem_cons_self _ _, hs⟩
        · obtain ⟨l, hl, hsl⟩ := ih t' k l' ht htail
          exact ⟨l, List.mem_cons_of_mem _ hl, hsl⟩

theorem collectAlerts_mem (m : HeartbeatMonitor) :
    ∀ (gs : List (PyLeaf × List PyVal)) (alerts : List Alert) (a : Alert),
      collectAlerts m gs = .ok alerts → a ∈ alerts →
      ∃ kg, kg ∈ gs ∧ detect_missed_heartbeats m kg.2 = .ok (some a) := by
  intro gs
  induction gs with
  | nil =>
    intro alerts a h hmem
    rw [collectAlerts] at h
    cases h
    cases hmem
  | cons p t ih =>
    intro alerts a h hmem
    obtain ⟨k₀, l₀⟩ := p
    rw [collectAlerts] at h
    cases hd : detect_missed_heartbeats m l₀ with
    | error err =>
      rw [hd] at h
      simp only [except_bind_error] at h
      cases h
    | ok a₀ =>
      rw [hd] at h
      simp only [except_bind_ok] at h
      cases ht : collectAlerts m t with
      | error err =>
        rw [ht] at h
        simp only [except_bind_error] at h
        cases h
      | ok rest =>
        rw [ht] at h
        simp only [except_bind_ok] at h
        cases h
        cases a₀ with
        | none =>
          obtain ⟨kg, hkg, hdet⟩ := ih rest a ht hmem
          exact ⟨kg, List.mem_cons_of_mem _ hkg, hdet⟩
        | some x =>
          rcases List.mem_cons.1 hmem with heq | htail
          · subst heq
            exact ⟨(k₀, l₀), List.mem_cons_self _ _, hd⟩
          · obtain ⟨kg, hkg, hdet⟩ := ih rest a ht htail
            exact ⟨kg, List.mem_cons_of_mem _ hkg, hdet⟩

theorem detectLoopRaw_service (m : HeartbeatMonitor) (svc : PyLeaf) :
    ∀ (l : List PyVal) (cm : ℤ) (a : Alert),
      detectLoopRaw m svc l cm = .ok (some a) → a.service = svc := by
  intro l
  induction l with
  | nil =>
    intro cm a h
    rw [show detectLoopRaw m svc [] cm = .ok none from rfl] at h
    cases h
  | cons e₁ tail ih =>
    cases tail with
    | nil =>
      intro cm a h
      rw [show detectLoopRaw m svc [e₁] cm = .ok none from rfl] at h
      cases h
    | cons e₂ rest =>
      intro cm a h
      rw [detectLoopRaw] at h
      cases h₁ : pySubscript e₁ "timestamp" with
      | error err =>
        simp only [h₁, except_bind_error] at h
        cases h
      | ok tv₁ =>
        simp only [h₁, except_bind_ok] at h
        cases h₂ : pySubscript e₂ "timestamp" with
        | error err =>
          simp only [h₂, except_bind_error] at h
          cases h
        | ok tv₂ =>
          simp only [h₂, except_bind_ok] at h
          cases hp₁ : parseTsVal tv₁ with
          | none =>
            simp only [hp₁] at h
            cases h
          | some ct =>
            simp only [hp₁] at h
            cases hp₂ : parseTsVal tv₂ with
            | none =>
              simp only [hp₂] at h
              cases h
            | some nt =>
              simp only [hp₂] at h
              split at h
              · split at h
                · split at h
                  · cases h
                    rfl
                  · exact ih _ a h
                · exact ih _ a h
              · cases h

theorem detect_short (m : HeartbeatMonitor) (l : List PyVal) (a : Alert)
    (hlen : l.length < 2) : detect_missed_heartbeats m l ≠ .ok (some a) := by
  intro h
  match l, hlen with
  | [], _ =>
    rw [detect_missed_heartbeats] at h
    cases h
  | [e], _ =>
    rw [detect_missed_heartbeats] at h
    cases hs : pySubscript e "service" with
    | error err =>
      rw [hs] at h
      simp only [except_bind_error] at h
      cases h
    | ok v =>
      rw [hs] at h
      simp only [except_bind_ok] at h
      rw [show detectLoopRaw m v [e] 0 = .ok none from rfl] at h
      cases h

/-! ### C5: fewer than two events never alert -/

/-- C5: under a positive configuration, a service whose group holds fewer
than two (valid) events contributes no alert: every alert returned by a
successful `monitor` call names some other service.  (The pairwise loop
never runs on a short group, so its counter never reaches any positive
threshold.) -/
theorem claim_C5 (m : HeartbeatMonitor) (events : List PyVal) (s : PyLeaf)
    (alerts : List Alert)
    (hi : 0 < m.expected_interval_seconds) (ha : 0 < m.allowed_misses)
    (hval : ∀ e ∈ events, validate_event e = true)
    (hok : monitor m events = .ok alerts)
    (hshort : (events.filter (fun e => decide (extractService e = .ok s))).length < 2) :
    ∀ a ∈ alerts, a.service ≠ s := by
  intro a hmem hsvc_eq
  rw [monitor, group_and_sort_events] at hok
  cases hgf : groupFold events [] with
  | error err =>
    simp only [hgf, except_bind_error] at hok
    cases hok
  | ok gs =>
    simp only [hgf, except_bind_ok] at hok
    cases hsg : sortGroups gs with
    | error err =>
      simp only [hsg, except_bind_error] at hok
      cases hok
    | ok gs' =>
      simp only [hsg, except_bind_ok] at hok
      obtain ⟨⟨k, l'⟩, hmemg', hdet⟩ := collectAlerts_mem m gs' alerts a hok hmem
      obtain ⟨l, hmemg, hsort⟩ := sortGroups_mem gs gs' k l' hsg hmemg'
      have hnd : (gs.map Prod.fst).Nodup := groupFold_nodup events [] gs hgf (by simp)
      have hl : l = events.filter (fun e => decide (extractService e = .ok k)) := by
        have h1 := lookupG_eq_of_mem gs k l hmemg hnd
        have h2 := groupFold_lookupG events [] gs hgf k
        rw [h1] at h2
        simpa [lookupG] using h2
      have hperm := sortOne_perm l l' hsort
      have hk : a.service = k := by
        cases hl' : l' with
        | nil =>
          rw [hl'] at hdet
          rw [show detect_missed_heartbeats m ([] : List PyVal) = .ok none from rfl] at hdet
          cases hdet
        | cons e₀ t =>
          rw [hl'] at hdet
          rw [detect_missed_heartbeats] at hdet
          cases hs₀ : pySubscript e₀ "service" with
          | error err =>
            simp only [hs₀, except_bind_error] at hdet
            cases hdet
          | ok v =>
            simp only [hs₀, except_bind_ok] at hdet
            have hv := detectLoopRaw_service m v (e₀ :: t) 0 a hdet
            have he₀l' : e₀ ∈ l' := by
              rw [hl']
              exact List.mem_cons_self _ _
            have he₀l : e₀ ∈ l := hperm.subset he₀l'
            have hef : decide (extractService e₀ = .ok k) = true := by
              rw [hl] at he₀l
              exact (List.mem_filter.1 he₀l).2
            have hex : extractService e₀ = .ok k := of_decide_eq_true hef
            rw [extractService, hs₀] at hex
            cases hex
            exact hv
      by_cases hks : k = s
      · subst hks
        have hlenl : l.length < 2 := by
          rw [hl]
          exact hshort
        have hlenl' : l'.length < 2 := by
          have := hperm.length_eq
          omega
        exact detect_short m l' a hlenl' hdet
      · exact hks (hk.symm.trans hsvc_eq)

theorem claim_C5_witness :
    (Alert.mk (.pStr "email") "2025-08-04T10:05:00Z").service ≠ .pStr "solo" :=
  claim_C5 cfg60x3 (emailBatch ++ [mkEv "solo" "2025-08-04T10:00:00Z"]) (.pStr "solo")
    [⟨.pStr "email", "2025-08-04T10:05:00Z"⟩]
    (by decide) (by decide) (by decide) (by decide) (by decide)
    ⟨.pStr "email", "2025-08-04T10:05:00Z"⟩ (by decide)

/-! ### Validation and refinement lemmas -/

theorem validate_extract (e : PyVal) (h : validate_event e = true) :
    ∃ str, extractService e = .ok (.pStr str) := by
  cases e with
  | pNone => simp [validate_event] at h
  | pStr s => simp [validate_event] at h
  | pDict fields =>
    rw [validate_event] at h
    split at h
    · cases h
    · rw [Bool.and_eq_true] at h
      obtain ⟨hserv, _⟩ := h
      cases hs : pyLookup fields "service" with
      | none => rw [hs] at hserv; cases hserv
      | some v =>
        cases v with
        | pNone => rw [hs] at hserv; cases hserv
        | pStr str =>
          exact ⟨str, by simp [extractService, pySubscript, hs]⟩

theorem validate_parsedTime (e : PyVal) (h : validate_event e = true) :
    ∃ d, parsedTime e = some d := by
  cases e with
  | pNone => simp [validate_event] at h
  | pStr s => simp [validate_event] at h
  | pDict fields =>
    rw [validate_event] at h
    split at h
    · cases h
    · rw [Bool.and_eq_true] at h
      obtain ⟨_, hts⟩ := h
      cases hs : pyLookup fields "timestamp" with
      | none => rw [hs] at hts; cases hts
      | some v =>
        rw [hs] at hts
        obtain ⟨d, hd⟩ := Option.isSome_iff_exists.1 hts
        exact ⟨d, by simp [parsedTime, hs, hd]⟩

theorem parsedTime_subscript (e : PyVal) (d : PyDateTime) (h : parsedTime e = some d) :
    ∃ tv, pySubscript e "timestamp" = .ok tv ∧ parseTsVal tv = some d := by
  cases e with
  | pNone => simp [parsedTime] at h
  | pStr s => simp [parsedTime] at h
  | pDict fields =>
    rw [parsedTime] at h
    cases hs : pyLookup fields "timestamp" with
    | none => rw [hs] at h; cases h
    | some v =>
      rw [hs] at h
      exact ⟨v, by simp [pySubscript, hs], h⟩

theorem mapM_subscript_ok :
    ∀ (l : List PyVal), (∀ e ∈ l, ∃ d, parsedTime e = some d) →
      ∃ tvs, l.mapM (fun e => pySubscript e "timestamp") = .ok tvs ∧
        tvs.map parseTsVal = l.map parsedTime := by
  intro l
  induction l with
  | nil => exact fun _ => ⟨[], rfl, rfl⟩
  | cons e rest ih =>
    intro h
    obtain ⟨d, hd⟩ := h e (List.mem_cons_self _ _)
    obtain ⟨tv, htv, hpt⟩ := parsedTime_subscript e d hd
    obtain ⟨tvs, hm, hmap⟩ := ih (fun e' he' => h e' (List.mem_cons_of_mem _ he'))
    refine ⟨tv :: tvs, ?_, ?_⟩
    · rw [List.mapM_cons]
      simp only [htv, hm, except_bind_ok]
      rfl
    · simp only [List.map_cons, hmap, hpt, hd]

theorem sortOne_ok (l : List PyVal) (c : Option ℤ)
    (hp : ∀ e ∈ l, ∃ d, parsedTime e = some d ∧ d.off = c) :
    sortOne l = .ok (sortedList l) := by
  obtain ⟨tvs, hm, hmap⟩ := mapM_subscript_ok l
    (fun e he => (hp e he).imp fun d hd => hd.1)
  unfold sortOne sortedList
  simp only [hm, except_bind_ok]
  by_cases hlen : l.length ≤ 1
  · rw [if_pos hlen, if_pos hlen]
    rfl
  · rw [if_neg hlen, if_neg hlen]
    have hcomp : ((tvs.map parseTsVal).all keyAware || (tvs.map parseTsVal).all keyNaive) = true := by
      rw [hmap]
      cases c with
      | some o =>
        have : (l.map parsedTime).all keyAware = true := by
          rw [List.all_eq_true]
          intro k hk
          obtain ⟨e, he, hke⟩ := List.mem_map.1 hk
          obtain ⟨d, hd, hoffd⟩ := hp e he
          rw [← hke, hd]
          simp [keyAware, hoffd]
        simp [this]
      | none =>
        have : (l.map parsedTime).all keyNaive = true := by
          rw [List.all_eq_true]
          intro k hk
          obtain ⟨e, he, hke⟩ := List.mem_map.1 hk
          obtain ⟨d, hd, hoffd⟩ := hp e he
          rw [← hke, hd]
          simp [keyNaive, hoffd]
        simp [this]
    rw [if_pos hcomp]
    rfl

theorem detectLoopRaw_eq_core (m : HeartbeatMonitor) (svc : PyLeaf) (b : Bool) :
    ∀ (l : List PyVal) (cm : ℤ),
      (∀ e ∈ l, ∃ d, parsedTime e = some d ∧ d.off.isSome = b) →
      detectLoopRaw m svc l cm = .ok (detectCore m svc (l.map parsedDT) cm) := by
  intro l
  induction l with
  | nil => intro cm _; rfl
  | cons e₁ tail ih =>
    cases tail with
    | nil => intro cm _; rfl
    | cons e₂ rest =>
      intro cm hp
      obtain ⟨d₁, hd₁, hb₁⟩ := hp e₁ (List.mem_cons_self _ _)
      obtain ⟨d₂, hd₂, hb₂⟩ := hp e₂ (List.mem_cons_of_mem _ (List.mem_cons_self _ _))
      obtain ⟨tv₁, htv₁, hpt₁⟩ := parsedTime_subscript e₁ d₁ hd₁
      obtain ⟨tv₂, htv₂, hpt₂⟩ := parsedTime_subscript e₂ d₂ hd₂
      have hmap : (e₁ :: e₂ :: rest).map parsedDT = d₁ :: d₂ :: rest.map parsedDT := by
        simp [parsedDT, hd₁, hd₂]
      rw [detectLoopRaw, hmap]
      simp only [htv₁, htv₂, except_bind_ok, hpt₁, hpt₂]
      rw [if_pos (by rw [hb₁, hb₂])]
      rw [detectCore]
      have htail : ∀ e ∈ e₂ :: rest, ∃ d, parsedTime e = some d ∧ d.off.isSome = b :=
        fun e he => hp e (List.mem_cons_of_mem _ he)
      have hmap₂ : (e₂ :: rest).map parsedDT = d₂ :: rest.map parsedDT := by
        simp [parsedDT, hd₂]
      by_cases hg : gapMissed m d₁ d₂
      · rw [if_pos hg, if_pos hg]
        by_cases hth : m.allowed_misses ≤ cm + intervalsMissed m d₁ d₂
        · rw [if_pos hth, if_pos hth]
        · rw [if_neg hth, if_neg hth, ih _ htail, hmap₂]
      · rw [if_neg hg, if_neg hg, ih _ htail, hmap₂]

theorem detect_eq_core (m : HeartbeatMonitor) (l : List PyVal) (k : PyLeaf) (b : Bool)
    (hhead : ∀ e₀ t, l = e₀ :: t → pySubscript e₀ "service" = .ok k)
    (hp : ∀ e ∈ l, ∃ d, parsedTime e = some d ∧ d.off.isSome = b) :
    detect_missed_heartbeats m l = .ok (detectCore m k (l.map parsedDT) 0) := by
  cases l with
  | nil => rfl
  | cons e₀ t =>
    rw [detect_missed_heartbeats]
    simp only [hhead e₀ t rfl, except_bind_ok]
    exact detectLoopRaw_eq_core m k b (e₀ :: t) 0 hp

theorem groupFold_ok_of :
    ∀ (events : List PyVal) (acc : List (PyLeaf × List PyVal)),
      (∀ e ∈ events, ∃ k, extractService e = .ok k) →
      ∃ gs, groupFold events acc = .ok gs := by
  intro events
  induction events with
  | nil => exact fun acc _ => ⟨acc, rfl⟩
  | cons e rest ih =>
    intro acc h
    obtain ⟨k, hk⟩ := h e (List.mem_cons_self _ _)
    obtain ⟨gs, hgs⟩ := ih (addToGroup acc k e) (fun e' he' => h e' (List.mem_cons_of_mem _ he'))
    refine ⟨gs, ?_⟩
    rw [groupFold, hk]
    exact hgs

theorem addToGroup_mem_keys (gs : List (PyLeaf × List PyVal)) (k k' : PyLeaf) (e : PyVal) :
    k' ∈ (addToGroup gs k e).map Prod.fst ↔ k' ∈ gs.map Prod.fst ∨ k' = k := by
  rw [addToGroup_fst]
  by_cases hmem : k ∈ gs.map Prod.fst
  · rw [if_pos hmem]
    constructor
    · exact Or.inl
    · rintro (h | h)
      · exact h
      · exact h ▸ hmem
  · rw [if_neg hmem]
    simp

theorem groupFold_mem_keys :
    ∀ (events : List PyVal) (acc gs : List (PyLeaf × List PyVal)),
      groupFold events acc = .ok gs →
      ∀ k, (k ∈ gs.map Prod.fst ↔
        k ∈ acc.map Prod.fst ∨ ∃ e ∈ events, extractService e = .ok k) := by
  intro events
  induction events with
  | nil =>
    intro acc gs h k
    rw [groupFold] at h
    cases h
    simp
  | cons e rest ih =>
    intro acc gs h k
    rw [groupFold] at h
    cases hex : extractService e with
    | error err => rw [hex] at h; cases h
    | ok ke =>
      rw [hex] at h
      rw [ih (addToGroup acc ke e) gs h k, addToGroup_mem_keys]
      constructor
      · rintro ((hacc | hke) | ⟨e', he', hex'⟩)
        · exact Or.inl hacc
        · exact Or.inr ⟨e, List.mem_cons_self _ _, hke ▸ hex⟩
        · exact Or.inr ⟨e', List.mem_cons_of_mem _ he', hex'⟩
      · rintro (hacc | ⟨e', he', hex'⟩)
        · exact Or.inl (Or.inl hacc)
        · rcases List.mem_cons.1 he' with heq | htail
          · subst heq
            rw [hex] at hex'
            cases hex'
            exact Or.inl (Or.inr rfl)
          · exact Or.inr ⟨e', htail, hex'⟩

theorem groups_eq_keys_map :
    ∀ (gs : List (PyLeaf × List PyVal)), (gs.map Prod.fst).Nodup →
      gs = (gs.map Prod.fst).map (fun k => (k, lookupG gs k)) := by
  intro gs
  induction gs with
  | nil => intro _; rfl
  | cons p t ih =>
    intro hnd
    obtain ⟨k₀, l₀⟩ := p
    have hnd' := List.nodup_cons.1 (show (k₀ :: t.map Prod.fst).Nodup by simpa using hnd)
    simp only [List.map_cons]
    rw [show lookupG ((k₀, l₀) :: t) k₀ = l₀ from by simp [lookupG]]
    have htail : (t.map Prod.fst).map (fun k => (k, lookupG ((k₀, l₀) :: t) k)) =
        (t.map Prod.fst).map (fun k => (k, lookupG t k)) := by
      apply List.map_congr_left
      intro k hk
      have hne : k₀ ≠ k := fun hc => hnd'.1 (hc ▸ hk)
      simp [lookupG, hne]
    rw [htail, ← ih hnd'.2]

theorem sortGroups_ok_map (c : Option ℤ) :
    ∀ (gs : List (PyLeaf × List PyVal)),
      (∀ kg ∈ gs, ∀ e ∈ kg.2, ∃ d, parsedTime e = some d ∧ d.off = c) →
      sortGroups gs = .ok (gs.map fun kg => (kg.1, sortedList kg.2)) := by
  intro gs
  induction gs with
  | nil => exact fun _ => rfl
  | cons kg t ih =>
    intro h
    obtain ⟨k₀, l₀⟩ := kg
    rw [sortGroups]
    rw [sortOne_ok l₀ c (h (k₀, l₀) (List.mem_cons_self _ _))]
    simp only [except_bind_ok]
    rw [ih (fun kg' hkg' => h kg' (List.mem_cons_of_mem _ hkg'))]
    simp only [except_bind_ok]
    rfl

theorem collectAlerts_eq_filterMap (m : HeartbeatMonitor) :
    ∀ (gs : List (PyLeaf × List PyVal)) (F : PyLeaf × List PyVal → Option Alert),
      (∀ kg ∈ gs, detect_missed_heartbeats m kg.2 = .ok (F kg)) →
      collectAlerts m gs = .ok (gs.filterMap F) := by
  intro gs
  induction gs with
  | nil => exact fun _ _ => rfl
  | cons kg t ih =>
    intro F h
    obtain ⟨k₀, l₀⟩ := kg
    rw [collectAlerts]
    rw [show detect_missed_heartbeats m l₀ = .ok (F (k₀, l₀)) from h (k₀, l₀) (List.mem_cons_self _ _)]
    simp only [except_bind_ok]
    rw [ih F (fun kg' hkg' => h kg' (List.mem_cons_of_mem _ hkg'))]
    simp only [except_bind_ok]
    cases hF : F (k₀, l₀) <;> simp [List.filterMap_cons, hF] <;> rfl

theorem parsedDT_recon (e : PyVal) (d : PyDateTime) (c : Option ℤ)
    (hd : parsedTime e = some d) (hc : d.off = c) :
    parsedDT e = reconDT c (evKey e) := by
  rw [parsedDT, hd, Option.getD_some, evKey, hd]
  obtain ⟨wall, off⟩ := d
  subst hc
  cases off with
  | none => simp [reconDT, utcMicros]
  | some o =>
    simp [reconDT, utcMicros]
    ring

theorem sort_map_evKey_eq (g₁ g₂ : List PyVal) (hperm : List.Perm g₁ g₂) :
    (List.insertionSort evLe g₁).map evKey = (List.insertionSort evLe g₂).map evKey := by
  have hs₁ : List.Sorted (fun a b : ℤ => a ≤ b) ((List.insertionSort evLe g₁).map evKey) :=
    (List.pairwise_map).2 ((List.sorted_insertionSort evLe g₁).imp (fun h => h))
  have hs₂ : List.Sorted (fun a b : ℤ => a ≤ b) ((List.insertionSort evLe g₂).map evKey) :=
    (List.pairwise_map).2 ((List.sorted_insertionSort evLe g₂).imp (fun h => h))
  have hp' := ((List.perm_insertionSort evLe g₁).map evKey).trans
      ((hperm.map evKey).trans ((List.perm_insertionSort evLe g₂).map evKey).symm)
  exact List.eq_of_perm_of_sorted hp' hs₁ hs₂

theorem sortedList_map_parsedDT_eq (g₁ g₂ : List PyVal) (c : Option ℤ)
    (hperm : List.Perm g₁ g₂)
    (hp : ∀ e ∈ g₁, ∃ d, parsedTime e = some d ∧ d.off = c) :
    (sortedList g₁).map parsedDT = (sortedList g₂).map parsedDT := by
  have hlen := hperm.length_eq
  unfold sortedList
  by_cases h1 : g₁.length ≤ 1
  · rw [if_pos h1, if_pos (by omega)]
    have hg : g₁ = g₂ := by
      match g₁, g₂, hperm, h1 with
      | [], g₂, hp', _ => exact List.Perm.nil_eq hp'
      | [a], g₂, hp', _ => exact (List.singleton_perm).1 hp'
      | _ :: _ :: _, _, _, h => simp at h
    rw [hg]
  · rw [if_neg h1, if_neg (by omega)]
    have hkeys := sort_map_evKey_eq g₁ g₂ hperm
    have e₁ : (List.insertionSort evLe g₁).map parsedDT =
        ((List.insertionSort evLe g₁).map evKey).map (reconDT c) := by
      rw [List.map_map]
      apply List.map_congr_left
      intro e he
      obtain ⟨d, hd, hc⟩ := hp e ((List.perm_insertionSort evLe g₁).subset he)
      exact parsedDT_recon e d c hd hc
    have e₂ : (List.insertionSort evLe g₂).map parsedDT =
        ((List.insertionSort evLe g₂).map evKey).map (reconDT c) := by
      rw [List.map_map]
      apply List.map_congr_left
      intro e he
      obtain ⟨d, hd, hc⟩ := hp e (hperm.symm.subset ((List.perm_insertionSort evLe g₂).subset he))
      exact parsedDT_recon e d c hd hc
    rw [e₁, e₂, hkeys]

/-! ### C6: order insensitivity -/

/-- C6 as stated is false: two permutations of the same three valid events
return different (non-reordered) alert sets.  The two equal-instant events
`10:00:00Z` and `15:30:00+05:30` tie in the stable sort, so the input
order decides which one's wall clock the alert formula reads, and
`strftime` renders those wall clocks differently. -/
theorem claim_C6_cex :
    List.Perm mixBatchA mixBatchB ∧
    monitor cfg60x3 mixBatchA = .ok [⟨.pStr "x", "2025-08-04T15:33:00Z"⟩] ∧
    monitor cfg60x3 mixBatchB = .ok [⟨.pStr "x", "2025-08-04T10:03:00Z"⟩] ∧
    (∀ e ∈ mixBatchA, validate_event e = true) ∧
    ¬ exceptPerm (monitor cfg60x3 mixBatchA) (monitor cfg60x3 mixBatchB) := by
  have h₁ : monitor cfg60x3 mixBatchA = .ok [⟨.pStr "x", "2025-08-04T15:33:00Z"⟩] := by decide
  have h₂ : monitor cfg60x3 mixBatchB = .ok [⟨.pStr "x", "2025-08-04T10:03:00Z"⟩] := by decide
  refine ⟨by decide, h₁, h₂, by decide, ?_⟩
  intro hcon
  rw [h₁, h₂] at hcon
  have := (List.singleton_perm).1 hcon
  exact absurd this (by decide)

/-- C6, amended: for lists of valid events whose timestamps all carry one
common UTC offset (including the all-naive case), permuting the input
yields the same alerts up to order — and both runs succeed or both fail
with the same error class.  (With mixed offsets, equal-instant sort ties
can expose the input order through the wall-clock-rendered `alert_at`,
as the counterexample shows; the set of alerted services is still
determined, but the rendered strings need not be.) -/
theorem claim_C6 (m : HeartbeatMonitor) (l₁ l₂ : List PyVal) (c : Option ℤ)
    (hperm : List.Perm l₁ l₂)
    (hval : ∀ e ∈ l₁, validate_event e = true)
    (hoff : ∀ e ∈ l₁, ∀ d, parsedTime e = some d → d.off = c) :
    exceptPerm (monitor m l₁) (monitor m l₂) := by
  have hpe₁ : ∀ e ∈ l₁, ∃ d, parsedTime e = some d ∧ d.off = c := by
    intro e he
    obtain ⟨d, hd⟩ := validate_parsedTime e (hval e he)
    exact ⟨d, hd, hoff e he d hd⟩
  have hpe₂ : ∀ e ∈ l₂, ∃ d, parsedTime e = some d ∧ d.off = c :=
    fun e he => hpe₁ e (hperm.symm.subset he)
  have hexk₁ : ∀ e ∈ l₁, ∃ k, extractService e = .ok k := by
    intro e he
    obtain ⟨str, h⟩ := validate_extract e (hval e he)
    exact ⟨.pStr str, h⟩
  have hexk₂ : ∀ e ∈ l₂, ∃ k, extractService e = .ok k :=
    fun e he => hexk₁ e (hperm.symm.subset he)
  obtain ⟨gs₁, hgf₁⟩ := groupFold_ok_of l₁ [] hexk₁
  obtain ⟨gs₂, hgf₂⟩ := groupFold_ok_of l₂ [] hexk₂
  have hnd₁ : (gs₁.map Prod.fst).Nodup := groupFold_nodup l₁ [] gs₁ hgf₁ (by simp)
  have hnd₂ : (gs₂.map Prod.fst).Nodup := groupFold_nodup l₂ [] gs₂ hgf₂ (by simp)
  have hlk₁ : ∀ k, lookupG gs₁ k = l₁.filter (fun e => decide (extractService e = .ok k)) := by
    intro k
    simpa [lookupG] using groupFold_lookupG l₁ [] gs₁ hgf₁ k
  have hlk₂ : ∀ k, lookupG gs₂ k = l₂.filter (fun e => decide (extractService e = .ok k)) := by
    intro k
    simpa [lookupG] using groupFold_lookupG l₂ [] gs₂ hgf₂ k
  have hgrpel₁ : ∀ kg ∈ gs₁, ∀ e ∈ kg.2, ∃ d, parsedTime e = some d ∧ d.off = c := by
    intro kg hkg e he
    have hl := lookupG_eq_of_mem gs₁ kg.1 kg.2 (by simpa using hkg) hnd₁
    rw [← hl, hlk₁] at he
    exact hpe₁ e (List.mem_filter.1 he).1
  have hgrpel₂ : ∀ kg ∈ gs₂, ∀ e ∈ kg.2, ∃ d, parsedTime e = some d ∧ d.off = c := by
    intro kg hkg e he
    have hl := lookupG_eq_of_mem gs₂ kg.1 kg.2 (by simpa using hkg) hnd₂
    rw [← hl, hlk₂] at he
    exact hpe₂ e (List.mem_filter.1 he).1
  have hsg₁ : sortGroups gs₁ = .ok (gs₁.map fun kg => (kg.1, sortedList kg.2)) :=
    sortGroups_ok_map c gs₁ hgrpel₁
  have hsg₂ : sortGroups gs₂ = .ok (gs₂.map fun kg => (kg.1, sortedList kg.2)) :=
    sortGroups_ok_map c gs₂ hgrpel₂
  have hdet : ∀ (l : List PyVal) (gs : List (PyLeaf × List PyVal)),
      (∀ k, lookupG gs k = l.filter (fun e => decide (extractService e = .ok k))) →
      (gs.map Prod.fst).Nodup →
      (∀ e ∈ l, ∃ d, parsedTime e = some d ∧ d.off = c) →
      ∀ kg ∈ (gs.map fun kg => (kg.1, sortedList kg.2)),
        detect_missed_heartbeats m kg.2 =
          .ok (detectCore m kg.1 (kg.2.map parsedDT) 0) := by
    intro l gs hlk hnd hpe kg hkg
    obtain ⟨⟨k, g⟩, hmem, heq⟩ := List.mem_map.1 hkg
    cases heq
    have hg : g = l.filter (fun e => decide (extractService e = .ok k)) := by
      rw [← lookupG_eq_of_mem gs k g hmem hnd, hlk]
    have hsub : ∀ e ∈ sortedList g, e ∈ l ∧ extractService e = .ok k := by
      intro e he
      have hel : e ∈ g := by
        unfold sortedList at he
        by_cases hlen : g.length ≤ 1
        · rwa [if_pos hlen] at he
        · rw [if_neg hlen] at he
          exact (List.perm_insertionSort evLe g).subset he
      rw [hg] at hel
      exact ⟨(List.mem_filter.1 hel).1, of_decide_eq_true (List.mem_filter.1 hel).2⟩
    apply detect_eq_core m (sortedList g) k c.isSome
    · intro e₀ t het
      exact (hsub e₀ (by rw [het]; exact List.mem_cons_self _ _)).2
    · intro e he
      obtain ⟨d, hd, hcd⟩ := hpe e (hsub e he).1
      exact ⟨d, hd, by rw [hcd]⟩
  have hc₁ := collectAlerts_eq_filterMap m (gs₁.map fun kg => (kg.1, sortedList kg.2))
    (fun kg => detectCore m kg.1 (kg.2.map parsedDT) 0) (hdet l₁ gs₁ hlk₁ hnd₁ hpe₁)
  have hc₂ := collectAlerts_eq_filterMap m (gs₂.map fun kg => (kg.1, sortedList kg.2))
    (fun kg => detectCore m kg.1 (kg.2.map parsedDT) 0) (hdet l₂ gs₂ hlk₂ hnd₂ hpe₂)
  have hm₁ : monitor m l₁ = .ok ((gs₁.map fun kg => (kg.1, sortedList kg.2)).filterMap
      (fun kg => detectCore m kg.1 (kg.2.map parsedDT) 0)) := by
    rw [monitor, group_and_sort_events]
    simp only [hgf₁, except_bind_ok, hsg₁, hc₁]
  have hm₂ : monitor m l₂ = .ok ((gs₂.map fun kg => (kg.1, sortedList kg.2)).filterMap
      (fun kg => detectCore m kg.1 (kg.2.map parsedDT) 0)) := by
    rw [monitor, group_and_sort_events]
    simp only [hgf₂, except_bind_ok, hsg₂, hc₂]
  rw [hm₁, hm₂]
  show List.Perm _ _
  have hkeysperm : List.Perm (gs₁.map Prod.fst) (gs₂.map Prod.fst) := by
    rw [List.perm_ext_iff_of_nodup hnd₁ hnd₂]
    intro k
    rw [groupFold_mem_keys l₁ [] gs₁ hgf₁ k, groupFold_mem_keys l₂ [] gs₂ hgf₂ k]
    simp only [List.map_nil, List.not_mem_nil, false_or]
    constructor
    · rintro ⟨e, he, hex⟩
      exact ⟨e, hperm.subset he, hex⟩
    · rintro ⟨e, he, hex⟩
      exact ⟨e, hperm.symm.subset he, hex⟩
  have ha₁ : (gs₁.map fun kg => (kg.1, sortedList kg.2)).filterMap
      (fun kg => detectCore m kg.1 (kg.2.map parsedDT) 0) =
      (gs₁.map Prod.fst).filterMap (fun k => detectCore m k
        ((sortedList (l₂.filter fun e => decide (extractService e = .ok k))).map parsedDT) 0) := by
    conv_lhs => rw [groups_eq_keys_map gs₁ hnd₁]
    rw [List.map_map, List.filterMap_map]
    apply List.filterMap_congr
    intro k _
    show detectCore m k ((sortedList (lookupG gs₁ k)).map parsedDT) 0 = _
    rw [hlk₁ k, sortedList_map_parsedDT_eq _ _ c (hperm.filter _)
      (fun e he => hpe₁ e (List.mem_filter.1 he).1)]
  have ha₂ : (gs₂.map fun kg => (kg.1, sortedList kg.2)).filterMap
      (fun kg => detectCore m kg.1 (kg.2.map parsedDT) 0) =
      (gs₂.map Prod.fst).filterMap (fun k => detectCore m k
        ((sortedList (l₂.filter fun e => decide (extractService e = .ok k))).map parsedDT) 0) := by
    conv_lhs => rw [groups_eq_keys_map gs₂ hnd₂]
    rw [List.map_map, List.filterMap_map]
    apply List.filterMap_congr
    intro k _
    show detectCore m k ((sortedList (lookupG gs₂ k)).map parsedDT) 0 = _
    rw [hlk₂ k]
  rw [ha₁, ha₂]
  exact hkeysperm.filterMap _

theorem claim_C6_witness :
    exceptPerm (monitor cfg60x3 apiScrambled) (monitor cfg60x3 apiOrdered) :=
  claim_C6 cfg60x3 apiScrambled apiOrdered (some 0)
    (by decide) (by decide)
    (by
      intro e he d hd
      have h2 : (parsedTime e).map PyDateTime.off = some (some 0) := by
        fin_cases he <;> decide
      rw [hd] at h2
      exact Option.some.inj h2)
